import Mathlib

/-!
Shallow embedding of the image-fit engine (sudo-hemant/image-fit).

The numeric algorithms of the four components are translated from the
TypeScript source into executable Lean definitions:

* `compressToTargetSize` — the target-size compressor's binary search
  (`src/pages/Home.tsx`, CompressImage).  The external encoder is modelled
  as a function `size : ℚ → ℕ` from quality to encoded byte count; a blob
  is identified by the quality it was encoded at.
* the crop geometry engine (`src/pages/CropImage.tsx`): drag and resize
  steps, aspect-preset changes, rotation accumulator and the rotated
  canvas dimensions used at extraction time.
* the fit compositor (`src/processor.ts`, `processImage`): scale, scaled
  dimensions and centering offsets.
* the resampler's step-down loop (`src/pages/ResizeImage.tsx`,
  `resizeImage`).

JavaScript numbers are modelled as exact rationals; `Math.round` on the
nonnegative values appearing here is `⌊q + 1/2⌋`; the JS `%` operator
(sign of the dividend) is `Int.tmod`.
-/

/-! ## Target-size compressor (`compressToTargetSize`, Home.tsx lines 154-189) -/

/-- State of the binary search: `low`, `high` and the best recorded blob,
identified by the quality it was encoded at. -/
structure BSState where
  low : ℚ
  high : ℚ
  best : Option ℚ
  deriving Repr, DecidableEq

/-- One iteration of the loop body: probe `mid = (low+high)/2`; if the
encoded size fits (`P mid`), record the blob as best and move `low = mid`,
otherwise move `high = mid`. -/
def bsStep (P : ℚ → Bool) (s : BSState) : BSState :=
  let mid := (s.low + s.high) / 2
  if P mid then { low := mid, high := s.high, best := some mid }
  else { low := s.low, high := mid, best := s.best }

/-- The loop, iterated `n` times. -/
def bsRun (P : ℚ → Bool) : ℕ → BSState → BSState
  | 0, s => s
  | n + 1, s => bsRun P n (bsStep P s)

/-- The list of qualities probed by `bsRun P n`. -/
def bsProbes (P : ℚ → Bool) : ℕ → BSState → List ℚ
  | 0, _ => []
  | n + 1, s => ((s.low + s.high) / 2) :: bsProbes P n (bsStep P s)

/-- `blob.size <= targetBytes` for the blob produced at quality `q`. -/
def fitsTarget (size : ℚ → ℕ) (targetBytes : ℕ) (q : ℚ) : Bool :=
  size q ≤ targetBytes

/-- `compressToTargetSize` from Home.tsx: 8 binary-search iterations over
`[minQuality, maxQuality]`; returns the best recorded blob, or the encoding
at `minQuality` if no probe fit.  The returned blob is identified by its
quality. -/
def compressToTargetSize (size : ℚ → ℕ) (targetBytes : ℕ)
    (minQuality maxQuality : ℚ) : ℚ :=
  match (bsRun (fitsTarget size targetBytes) 8
      { low := minQuality, high := maxQuality, best := none }).best with
  | some q => q
  | none => minQuality

/-! ### Loop invariants -/

theorem bsRun_succ (P : ℚ → Bool) (n : ℕ) (s : BSState) :
    bsRun P (n + 1) s = bsRun P n (bsStep P s) := rfl

/-- The interval bounds only tighten, and `low < high` is preserved. -/
theorem bsRun_interval (P : ℚ → Bool) (n : ℕ) (s : BSState)
    (h : s.low < s.high) :
    s.low ≤ (bsRun P n s).low ∧ (bsRun P n s).low < (bsRun P n s).high ∧
      (bsRun P n s).high ≤ s.high := by
  induction n generalizing s with
  | zero => exact ⟨le_refl _, h, le_refl _⟩
  | succ n ih =>
    rw [bsRun_succ]
    have hstep : s.low ≤ (bsStep P s).low ∧ (bsStep P s).low < (bsStep P s).high ∧
        (bsStep P s).high ≤ s.high := by
      by_cases hP : P ((s.low + s.high) / 2) <;>
        simp [bsStep, hP] <;> constructor <;> linarith
    obtain ⟨h1, h2, h3⟩ := hstep
    obtain ⟨g1, g2, g3⟩ := ih (bsStep P s) h2
    exact ⟨le_trans h1 g1, g2, le_trans g3 h3⟩

/-- Every probed quality lies strictly inside the current interval. -/
theorem bsProbes_mem (P : ℚ → Bool) (n : ℕ) (s : BSState)
    (h : s.low < s.high) :
    ∀ p ∈ bsProbes P n s, s.low < p ∧ p < s.high := by
  induction n generalizing s with
  | zero => intro p hp; simp [bsProbes] at hp
  | succ n ih =>
    intro p hp
    simp only [bsProbes, List.mem_cons] at hp
    rcases hp with hp | hp
    · subst hp; constructor <;> linarith
    · have hstep : s.low ≤ (bsStep P s).low ∧ (bsStep P s).low < (bsStep P s).high ∧
          (bsStep P s).high ≤ s.high := by
        by_cases hP : P ((s.low + s.high) / 2) <;>
          simp [bsStep, hP] <;> constructor <;> linarith
      obtain ⟨h1, h2, h3⟩ := hstep
      obtain ⟨g1, g2⟩ := ih (bsStep P s) h2 p hp
      exact ⟨lt_of_le_of_lt h1 g1, lt_of_lt_of_le g2 h3⟩

/-- The interval width halves at every iteration. -/
theorem bsRun_width (P : ℚ → Bool) (n : ℕ) (s : BSState) :
    (bsRun P n s).high - (bsRun P n s).low = (s.high - s.low) / 2 ^ n := by
  induction n generalizing s with
  | zero => simp [bsRun]
  | succ n ih =>
    rw [bsRun_succ, ih (bsStep P s)]
    have hw : (bsStep P s).high - (bsStep P s).low = (s.high - s.low) / 2 := by
      by_cases hP : P ((s.low + s.high) / 2) <;> simp [bsStep, hP] <;> ring
    rw [hw]
    ring

/-- There are exactly `n` probes. -/
theorem bsProbes_length (P : ℚ → Bool) (n : ℕ) (s : BSState) :
    (bsProbes P n s).length = n := by
  induction n generalizing s with
  | zero => rfl
  | succ n ih => simp [bsProbes, ih]

/-- Either no probe fits and the run leaves `low` and `best` untouched, or
the best is the last fitting probe, which `low` equals. -/
theorem bsRun_cases (P : ℚ → Bool) (n : ℕ) (s : BSState) :
    ((bsRun P n s).best = s.best ∧ (bsRun P n s).low = s.low ∧
        ∀ p ∈ bsProbes P n s, P p = false) ∨
      (∃ q, (bsRun P n s).best = some q ∧ (bsRun P n s).low = q ∧
        P q = true ∧ q ∈ bsProbes P n s) := by
  induction n generalizing s with
  | zero => left; exact ⟨rfl, rfl, by simp [bsProbes]⟩
  | succ n ih =>
    rw [bsRun_succ]
    rcases ih (bsStep P s) with ⟨h1, h2, h3⟩ | ⟨q, h1, h2, h3, h4⟩
    · by_cases hP : P ((s.low + s.high) / 2)
      · right
        refine ⟨(s.low + s.high) / 2, ?_, ?_, hP, by simp [bsProbes]⟩
        · rw [h1]; simp [bsStep, hP]
        · rw [h2]; simp [bsStep, hP]
      · left
        refine ⟨?_, ?_, ?_⟩
        · rw [h1]; simp [bsStep, hP]
        · rw [h2]; simp [bsStep, hP]
        · intro p hp
          simp only [bsProbes, List.mem_cons] at hp
          rcases hp with hp | hp
          · subst hp; simpa using hP
          · exact h3 p hp
    · right
      exact ⟨q, h1, h2, h3, by simp only [bsProbes, List.mem_cons]; right; exact h4⟩

/-- The returned quality always equals the final `low` of the search. -/
theorem compressToTargetSize_eq_low (size : ℚ → ℕ) (targetBytes : ℕ)
    (minQuality maxQuality : ℚ) :
    compressToTargetSize size targetBytes minQuality maxQuality =
      (bsRun (fitsTarget size targetBytes) 8
        { low := minQuality, high := maxQuality, best := none }).low := by
  unfold compressToTargetSize
  rcases bsRun_cases (fitsTarget size targetBytes) 8
      { low := minQuality, high := maxQuality, best := none } with
    ⟨h1, h2, _⟩ | ⟨q, h1, h2, _, _⟩
  · rw [h1, h2]
  · rw [h1, h2]

/-! ### Relating two searches with pointwise-implied fit predicates -/

/-- Relation between the states of two searches run in lockstep: equal
(nonnegative) interval widths, and the second `low` a whole number of
widths above the first. -/
def bsRel (s1 s2 : BSState) : Prop :=
  s1.high - s1.low = s2.high - s2.low ∧ 0 ≤ s1.high - s1.low ∧
    ∃ k : ℕ, s2.low - s1.low = k * (s1.high - s1.low)

theorem bsStep_cases (P : ℚ → Bool) (s : BSState) :
    ((bsStep P s).low = (s.low + s.high) / 2 ∧ (bsStep P s).high = s.high ∧
        P ((s.low + s.high) / 2) = true) ∨
      ((bsStep P s).low = s.low ∧ (bsStep P s).high = (s.low + s.high) / 2 ∧
        P ((s.low + s.high) / 2) = false) := by
  by_cases hP : P ((s.low + s.high) / 2) <;> simp [bsStep, hP]

theorem bsStep_rel (P1 P2 : ℚ → Bool) (hP : ∀ q, P1 q = true → P2 q = true)
    (s1 s2 : BSState) (h : bsRel s1 s2) : bsRel (bsStep P1 s1) (bsStep P2 s2) := by
  obtain ⟨hw, hw0, k, hk⟩ := h
  rcases bsStep_cases P1 s1 with ⟨l1, h1, hb1⟩ | ⟨l1, h1, hb1⟩ <;>
    rcases bsStep_cases P2 s2 with ⟨l2, h2, hb2⟩ | ⟨l2, h2, hb2⟩
  · -- both probes fit
    refine ⟨?_, ?_, ⟨2 * k, ?_⟩⟩ <;> simp only [l1, h1, l2, h2]
    · linarith
    · linarith
    · push_cast
      linear_combination hk - hw / 2
  · -- first fits, second does not
    rcases Nat.eq_zero_or_pos k with hk0 | hkpos
    · exfalso
      subst hk0
      push_cast at hk
      have hlow : s2.low = s1.low := by linarith
      have hhigh : s2.high = s1.high := by linarith
      rw [hlow, hhigh, hP _ hb1] at hb2
      simp at hb2
    · obtain ⟨j, rfl⟩ : ∃ j, k = j + 1 := ⟨k - 1, by omega⟩
      refine ⟨?_, ?_, ⟨2 * j + 1, ?_⟩⟩ <;> simp only [l1, h1, l2, h2]
      · linarith
      · linarith
      · push_cast
        push_cast at hk
        linear_combination hk
  · -- first does not fit, second does
    refine ⟨?_, ?_, ⟨2 * k + 1, ?_⟩⟩ <;> simp only [l1, h1, l2, h2]
    · linarith
    · linarith
    · push_cast
      linear_combination hk - hw / 2
  · -- neither fits
    refine ⟨?_, ?_, ⟨2 * k, ?_⟩⟩ <;> simp only [l1, h1, l2, h2]
    · linarith
    · linarith
    · push_cast
      linear_combination hk

theorem bsRun_rel (P1 P2 : ℚ → Bool) (hP : ∀ q, P1 q = true → P2 q = true)
    (n : ℕ) (s1 s2 : BSState) (h : bsRel s1 s2) :
    bsRel (bsRun P1 n s1) (bsRun P2 n s2) := by
  induction n generalizing s1 s2 with
  | zero => exact h
  | succ n ih => exact ih _ _ (bsStep_rel P1 P2 hP s1 s2 h)

theorem bsRel_low_le (s1 s2 : BSState) (h : bsRel s1 s2) : s1.low ≤ s2.low := by
  obtain ⟨hw, hw0, k, hk⟩ := h
  nlinarith [Nat.cast_nonneg (α := ℚ) k]

/-! ### Claim theorems for the compressor -/

/-- C1.  `compressToTargetSize` performs exactly 8 binary-search probes; it
returns the best recorded result — whose size is within the byte budget —
whenever at least one probe met the budget, and otherwise returns the
encoding at `minQuality`. -/
theorem compressToTargetSize_correct (size : ℚ → ℕ) (targetBytes : ℕ)
    (minQuality maxQuality : ℚ) :
    (bsProbes (fitsTarget size targetBytes) 8
        { low := minQuality, high := maxQuality, best := none }).length = 8 ∧
    ((∃ p ∈ bsProbes (fitsTarget size targetBytes) 8
          { low := minQuality, high := maxQuality, best := none },
        size p ≤ targetBytes) →
      ∃ q, (bsRun (fitsTarget size targetBytes) 8
          { low := minQuality, high := maxQuality, best := none }).best = some q ∧
        compressToTargetSize size targetBytes minQuality maxQuality = q ∧
        size q ≤ targetBytes) ∧
    ((∀ p ∈ bsProbes (fitsTarget size targetBytes) 8
          { low := minQuality, high := maxQuality, best := none },
        targetBytes < size p) →
      (bsRun (fitsTarget size targetBytes) 8
          { low := minQuality, high := maxQuality, best := none }).best = none ∧
      compressToTargetSize size targetBytes minQuality maxQuality = minQuality) := by
  refine ⟨bsProbes_length _ 8 _, ?_, ?_⟩
  · rintro ⟨p, hp, hps⟩
    rcases bsRun_cases (fitsTarget size targetBytes) 8
        { low := minQuality, high := maxQuality, best := none } with
      ⟨_, _, h3⟩ | ⟨q, h1, h2, h3, _⟩
    · have := h3 p hp
      simp only [fitsTarget, decide_eq_false_iff_not, not_le] at this
      omega
    · refine ⟨q, h1, ?_, ?_⟩
      · unfold compressToTargetSize
        rw [h1]
      · simpa [fitsTarget] using h3
  · intro hall
    rcases bsRun_cases (fitsTarget size targetBytes) 8
        { low := minQuality, high := maxQuality, best := none } with
      ⟨h1, _, _⟩ | ⟨q, _, _, h3, h4⟩
    · refine ⟨h1, ?_⟩
      unfold compressToTargetSize
      rw [h1]
    · exfalso
      have := hall q h4
      simp only [fitsTarget, decide_eq_true_eq] at h3
      omega

/-- C10.  With `minQuality < maxQuality`, every probed quality lies strictly
between `minQuality` and `maxQuality` (in particular `maxQuality` is never
probed), the invariant `minQuality ≤ low < high ≤ maxQuality` holds at every
iteration, and after the 8 iterations `high - low = (maxQuality - minQuality)/256`. -/
theorem compressToTargetSize_probe_bounds (size : ℚ → ℕ) (targetBytes : ℕ)
    (minQuality maxQuality : ℚ) (h : minQuality < maxQuality) :
    (∀ p ∈ bsProbes (fitsTarget size targetBytes) 8
        { low := minQuality, high := maxQuality, best := none },
      minQuality < p ∧ p < maxQuality) ∧
    (∀ i : ℕ,
      minQuality ≤ (bsRun (fitsTarget size targetBytes) i
          { low := minQuality, high := maxQuality, best := none }).low ∧
      (bsRun (fitsTarget size targetBytes) i
          { low := minQuality, high := maxQuality, best := none }).low <
        (bsRun (fitsTarget size targetBytes) i
          { low := minQuality, high := maxQuality, best := none }).high ∧
      (bsRun (fitsTarget size targetBytes) i
          { low := minQuality, high := maxQuality, best := none }).high ≤ maxQuality) ∧
    (bsRun (fitsTarget size targetBytes) 8
        { low := minQuality, high := maxQuality, best := none }).high -
      (bsRun (fitsTarget size targetBytes) 8
        { low := minQuality, high := maxQuality, best := none }).low =
      (maxQuality - minQuality) / 256 := by
  refine ⟨bsProbes_mem _ 8 _ h, fun i => bsRun_interval _ i _ h, ?_⟩
  rw [bsRun_width]
  norm_num

/-- C7.  Holding the bitmap and encoder fixed (encoded size monotone
non-decreasing in quality), the quality whose encoding is returned is
monotone non-decreasing in `targetBytes`. -/
theorem compressToTargetSize_mono (size : ℚ → ℕ) (t1 t2 : ℕ)
    (minQuality maxQuality : ℚ)
    (hmono : ∀ q q' : ℚ, q ≤ q' → size q ≤ size q')
    (hq : minQuality ≤ maxQuality) (ht : t1 ≤ t2) :
    compressToTargetSize size t1 minQuality maxQuality ≤
      compressToTargetSize size t2 minQuality maxQuality := by
  rw [compressToTargetSize_eq_low, compressToTargetSize_eq_low]
  refine bsRel_low_le _ _ (bsRun_rel _ _ ?_ 8 _ _ ?_)
  · intro q hq'
    simp only [fitsTarget, decide_eq_true_eq] at hq' ⊢
    omega
  · exact ⟨rfl, by simpa using hq, 0, by simp⟩

/-- Witness for C1 at a concrete encoder and budget. -/
theorem compressToTargetSize_correct_witness :
    (bsProbes (fitsTarget (fun q => if q ≤ 1/2 then 80 else 200) 100) 8
        { low := 1/10, high := 19/20, best := none }).length = 8 ∧
    ((∃ p ∈ bsProbes (fitsTarget (fun q => if q ≤ 1/2 then 80 else 200) 100) 8
          { low := 1/10, high := 19/20, best := none },
        (fun q : ℚ => if q ≤ 1/2 then 80 else 200) p ≤ 100) →
      ∃ q, (bsRun (fitsTarget (fun q => if q ≤ 1/2 then 80 else 200) 100) 8
          { low := 1/10, high := 19/20, best := none }).best = some q ∧
        compressToTargetSize (fun q => if q ≤ 1/2 then 80 else 200) 100 (1/10) (19/20) = q ∧
        (fun q : ℚ => if q ≤ 1/2 then 80 else 200) q ≤ 100) ∧
    ((∀ p ∈ bsProbes (fitsTarget (fun q => if q ≤ 1/2 then 80 else 200) 100) 8
          { low := 1/10, high := 19/20, best := none },
        100 < (fun q : ℚ => if q ≤ 1/2 then 80 else 200) p) →
      (bsRun (fitsTarget (fun q => if q ≤ 1/2 then 80 else 200) 100) 8
          { low := 1/10, high := 19/20, best := none }).best = none ∧
      compressToTargetSize (fun q => if q ≤ 1/2 then 80 else 200) 100 (1/10) (19/20) = 1/10) :=
  compressToTargetSize_correct (fun q => if q ≤ 1/2 then 80 else 200) 100 (1/10) (19/20)

/-- Witness for C10 at the reference quality range. -/
theorem compressToTargetSize_probe_bounds_witness :
    (1 : ℚ)/10 < 19/20 ∧
    ((bsRun (fitsTarget (fun _ => 0) 100) 8
        { low := 1/10, high := 19/20, best := none }).high -
      (bsRun (fitsTarget (fun _ => 0) 100) 8
        { low := 1/10, high := 19/20, best := none }).low =
      ((19:ℚ)/20 - 1/10) / 256) :=
  ⟨by norm_num,
    (compressToTargetSize_probe_bounds (fun _ => 0) 100 (1/10) (19/20) (by norm_num)).2.2⟩

/-- Witness for C7 at a concrete monotone encoder and budgets. -/
theorem compressToTargetSize_mono_witness :
    compressToTargetSize (fun q => if q ≤ 1/2 then 80 else 200) 90 (1/10) (19/20) ≤
      compressToTargetSize (fun q => if q ≤ 1/2 then 80 else 200) 150 (1/10) (19/20) :=
  compressToTargetSize_mono (fun q => if q ≤ 1/2 then 80 else 200) 90 150 (1/10) (19/20)
    (fun q q' hqq => by
      dsimp only
      split_ifs with h1 h2 h2 <;> linarith)
    (by norm_num) (by norm_num)

/-! ## Crop geometry engine (`CropImage.tsx`) -/

/-- The crop rectangle, in unrotated source coordinates (`CropArea` in
CropImage.tsx).  Sub-pixel values are exact rationals. -/
structure CropArea where
  x : ℚ
  y : ℚ
  width : ℚ
  height : ℚ
  deriving Repr, DecidableEq

/-- The four resize handles of the crop selection box. -/
inductive Handle
  | nw
  | ne
  | sw
  | se
  deriving Repr, DecidableEq

/-- `isResizing.includes('e') || isResizing.includes('w')`: every corner
handle name contains an `e` or a `w`, so this is true for all four. -/
def handleEW : Handle → Bool
  | .nw => true
  | .ne => true
  | .sw => true
  | .se => true

/-- The drag branch of `handleMouseMove` (lines 218-226): translate the
rectangle recorded at pointer-down by the delta, clamped into the image. -/
def dragMove (imgW imgH : ℚ) (s : CropArea) (dx dy : ℚ) : CropArea :=
  { s with
    x := max 0 (min (imgW - s.width) (s.x + dx)),
    y := max 0 (min (imgH - s.height) (s.y + dy)) }

/-- The `switch (isResizing)` block of `handleMouseMove` (lines 230-274):
free-form adjustment of the two edges adjacent to the active handle, with
the `< 0` position clamps. -/
def resizeRaw (imgW imgH : ℚ) : Handle → CropArea → ℚ → ℚ → CropArea
  | .se, s, dx, dy =>
      { s with
        width := max 50 (min (imgW - s.x) (s.width + dx)),
        height := max 50 (min (imgH - s.y) (s.height + dy)) }
  | .sw, s, dx, dy =>
      let newWidth := max 50 (s.width - dx)
      let a : CropArea :=
        { x := s.x + s.width - newWidth, y := s.y, width := newWidth,
          height := max 50 (min (imgH - s.y) (s.height + dy)) }
      if a.x < 0 then { a with width := a.width + a.x, x := 0 } else a
  | .ne, s, dx, dy =>
      let newHeight := max 50 (s.height - dy)
      let a : CropArea :=
        { x := s.x, y := s.y + s.height - newHeight,
          width := max 50 (min (imgW - s.x) (s.width + dx)), height := newHeight }
      if a.y < 0 then { a with height := a.height + a.y, y := 0 } else a
  | .nw, s, dx, dy =>
      let newWidth := max 50 (s.width - dx)
      let newHeight := max 50 (s.height - dy)
      let a : CropArea :=
        { x := s.x + s.width - newWidth, y := s.y + s.height - newHeight,
          width := newWidth, height := newHeight }
      let b := if a.x < 0 then { a with width := a.width + a.x, x := 0 } else a
      if b.y < 0 then { b with height := b.height + b.y, y := 0 } else b

/-- The aspect-ratio constraint block of `handleMouseMove` (lines 277-293):
re-derive the non-driven dimension from the driven one, then clamp against
the right and bottom bounds preserving the ratio `r`. -/
def applyAspect (imgW imgH : ℚ) (hand : Handle) (r : ℚ) (a : CropArea) : CropArea :=
  let a1 := if handleEW hand then { a with height := a.width / r }
            else { a with width := a.height * r }
  let a2 := if a1.x + a1.width > imgW then
              { a1 with width := imgW - a1.x, height := (imgW - a1.x) / r }
            else a1
  if a2.y + a2.height > imgH then
    { a2 with height := imgH - a2.y, width := (imgH - a2.y) * r }
  else a2

/-- The resize branch of `handleMouseMove`: free-form adjustment followed by
the aspect constraint when a fixed-ratio preset is selected. -/
def resizeMove (imgW imgH : ℚ) (aspect : Option ℚ) (hand : Handle)
    (s : CropArea) (dx dy : ℚ) : CropArea :=
  match aspect with
  | some r => applyAspect imgW imgH hand r (resizeRaw imgW imgH hand s dx dy)
  | none => resizeRaw imgW imgH hand s dx dy

/-- A pointer gesture, with the pointer delta already converted to source
units (`deltaX = (e.clientX - dragStart.x) / displayScale`). -/
inductive Gesture
  | drag (dx dy : ℚ)
  | resize (hand : Handle) (dx dy : ℚ)
  deriving Repr, DecidableEq

/-- One `handleMouseMove` update, computed from the rectangle recorded at
pointer-down. -/
def gestureStep (imgW imgH : ℚ) (aspect : Option ℚ) (g : Gesture)
    (s : CropArea) : CropArea :=
  match g with
  | .drag dx dy => dragMove imgW imgH s dx dy
  | .resize hand dx dy => resizeMove imgW imgH aspect hand s dx dy

/-- `handlePresetChange` (lines 160-189) for a fixed-ratio preset `r`:
shrink one dimension to meet the ratio, keep the center, clamp into bounds. -/
def presetChange (imgW imgH r : ℚ) (c : CropArea) : CropArea :=
  let newW := if c.width / c.height > r then c.height * r else c.width
  let newH := if c.width / c.height > r then c.height else c.width / r
  let centerX := c.x + c.width / 2
  let centerY := c.y + c.height / 2
  { x := max 0 (min (imgW - newW) (centerX - newW / 2)),
    y := max 0 (min (imgH - newH) (centerY - newH / 2)),
    width := newW, height := newH }

/-- Containment within the source image. -/
def inBounds (imgW imgH : ℚ) (c : CropArea) : Prop :=
  0 ≤ c.x ∧ 0 ≤ c.y ∧ c.x + c.width ≤ imgW ∧ c.y + c.height ≤ imgH

/-- The §3 bounds invariant with the reference UI's 50-unit minimum size. -/
def cropInv (imgW imgH : ℚ) (c : CropArea) : Prop :=
  inBounds imgW imgH c ∧ 50 ≤ c.width ∧ 50 ≤ c.height

instance (imgW imgH : ℚ) (c : CropArea) : Decidable (inBounds imgW imgH c) := by
  unfold inBounds; infer_instance

instance (imgW imgH : ℚ) (c : CropArea) : Decidable (cropInv imgW imgH c) := by
  unfold cropInv; infer_instance

/-! ### Crop step lemmas -/

theorem dragMove_inv (imgW imgH : ℚ) (s : CropArea) (dx dy : ℚ)
    (hs : cropInv imgW imgH s) : cropInv imgW imgH (dragMove imgW imgH s dx dy) := by
  obtain ⟨⟨hx, hy, hxw, hyh⟩, hw, hh⟩ := hs
  unfold dragMove cropInv inBounds
  dsimp only
  have h1 : max 0 (min (imgW - s.width) (s.x + dx)) ≤ imgW - s.width :=
    max_le (by linarith) (min_le_left _ _)
  have h2 : max 0 (min (imgH - s.height) (s.y + dy)) ≤ imgH - s.height :=
    max_le (by linarith) (min_le_left _ _)
  refine ⟨⟨le_max_left _ _, le_max_left _ _, by linarith, by linarith⟩, hw, hh⟩

theorem resizeRaw_inv (imgW imgH : ℚ) (hand : Handle) (s : CropArea) (dx dy : ℚ)
    (hs : cropInv imgW imgH s) :
    cropInv imgW imgH (resizeRaw imgW imgH hand s dx dy) := by
  obtain ⟨⟨hx, hy, hxw, hyh⟩, hw, hh⟩ := hs
  have hA : max 50 (min (imgW - s.x) (s.width + dx)) ≤ imgW - s.x :=
    max_le (by linarith) (min_le_left _ _)
  have hB : max 50 (min (imgH - s.y) (s.height + dy)) ≤ imgH - s.y :=
    max_le (by linarith) (min_le_left _ _)
  have hA50 : (50:ℚ) ≤ max 50 (min (imgW - s.x) (s.width + dx)) := le_max_left _ _
  have hB50 : (50:ℚ) ≤ max 50 (min (imgH - s.y) (s.height + dy)) := le_max_left _ _
  have hW50 : (50:ℚ) ≤ max 50 (s.width - dx) := le_max_left _ _
  have hH50 : (50:ℚ) ≤ max 50 (s.height - dy) := le_max_left _ _
  cases hand with
  | se =>
    unfold resizeRaw cropInv inBounds
    dsimp only
    exact ⟨⟨hx, hy, by linarith, by linarith⟩, hA50, hB50⟩
  | sw =>
    unfold resizeRaw cropInv inBounds
    dsimp only
    split_ifs with h1 <;> dsimp only <;>
      refine ⟨⟨by linarith, hy, by linarith, by linarith⟩, by linarith, hB50⟩
  | ne =>
    unfold resizeRaw cropInv inBounds
    dsimp only
    split_ifs with h1 <;> dsimp only <;>
      refine ⟨⟨hx, by linarith, by linarith, by linarith⟩, hA50, by linarith⟩
  | nw =>
    unfold resizeRaw cropInv inBounds
    dsimp only
    split_ifs with h1 h2 h2 <;> dsimp only at h2 ⊢ <;>
      refine ⟨⟨by linarith, by linarith, by linarith, by linarith⟩, by linarith, by linarith⟩

/-- The inductive invariant of aspect-constrained editing sessions:
containment plus strictly positive dimensions.  (The 50-unit minimum is
not preserved once an aspect constraint is active — see the C2
counterexample — but positivity and containment are.) -/
def aspectInv (imgW imgH : ℚ) (c : CropArea) : Prop :=
  inBounds imgW imgH c ∧ 0 < c.width ∧ 0 < c.height

theorem dragMove_aspectInv (imgW imgH : ℚ) (s : CropArea) (dx dy : ℚ)
    (hs : aspectInv imgW imgH s) :
    aspectInv imgW imgH (dragMove imgW imgH s dx dy) := by
  obtain ⟨⟨hx, hy, hxw, hyh⟩, hw, hh⟩ := hs
  unfold dragMove aspectInv inBounds
  dsimp only
  have h1 : max 0 (min (imgW - s.width) (s.x + dx)) ≤ imgW - s.width :=
    max_le (by linarith) (min_le_left _ _)
  have h2 : max 0 (min (imgH - s.height) (s.y + dy)) ≤ imgH - s.height :=
    max_le (by linarith) (min_le_left _ _)
  exact ⟨⟨le_max_left _ _, le_max_left _ _, by linarith, by linarith⟩, hw, hh⟩

/-- From any session state, the free-form resize produces a rectangle with
nonnegative position, positive dimensions, and position strictly inside the
image. -/
theorem resizeRaw_pre (imgW imgH : ℚ) (hand : Handle) (s : CropArea) (dx dy : ℚ)
    (hs : aspectInv imgW imgH s) :
    0 ≤ (resizeRaw imgW imgH hand s dx dy).x ∧
    0 ≤ (resizeRaw imgW imgH hand s dx dy).y ∧
    0 < (resizeRaw imgW imgH hand s dx dy).width ∧
    0 < (resizeRaw imgW imgH hand s dx dy).height ∧
    (resizeRaw imgW imgH hand s dx dy).x < imgW ∧
    (resizeRaw imgW imgH hand s dx dy).y < imgH := by
  obtain ⟨⟨hx, hy, hxw, hyh⟩, hw, hh⟩ := hs
  have hA50 : (50:ℚ) ≤ max 50 (min (imgW - s.x) (s.width + dx)) := le_max_left _ _
  have hB50 : (50:ℚ) ≤ max 50 (min (imgH - s.y) (s.height + dy)) := le_max_left _ _
  have hW50 : (50:ℚ) ≤ max 50 (s.width - dx) := le_max_left _ _
  have hH50 : (50:ℚ) ≤ max 50 (s.height - dy) := le_max_left _ _
  cases hand with
  | se =>
    unfold resizeRaw
    dsimp only
    exact ⟨hx, hy, by linarith, by linarith, by linarith, by linarith⟩
  | sw =>
    unfold resizeRaw
    dsimp only
    split_ifs with h1 <;> dsimp only <;>
      exact ⟨by linarith, hy, by linarith, by linarith, by linarith, by linarith⟩
  | ne =>
    unfold resizeRaw
    dsimp only
    split_ifs with h1 <;> dsimp only <;>
      exact ⟨hx, by linarith, by linarith, by linarith, by linarith, by linarith⟩
  | nw =>
    unfold resizeRaw
    dsimp only
    split_ifs with h1 h2 h2 <;> dsimp only at h2 ⊢ <;>
      exact ⟨by linarith, by linarith, by linarith, by linarith, by linarith,
        by linarith⟩

/-- The aspect-constraint block restores containment and the exact ratio
from *any* rectangle with nonnegative position strictly inside the image
and positive width — no minimum size required. -/
theorem applyAspect_step (imgW imgH r : ℚ) (hand : Handle) (a : CropArea)
    (hr : 0 < r) (hx : 0 ≤ a.x) (hy : 0 ≤ a.y) (hw : 0 < a.width)
    (hxW : a.x < imgW) (hyH : a.y < imgH) :
    aspectInv imgW imgH (applyAspect imgW imgH hand r a) ∧
    (applyAspect imgW imgH hand r a).width =
      (applyAspect imgW imgH hand r a).height * r := by
  have hEW : handleEW hand = true := by cases hand <;> rfl
  unfold applyAspect
  rw [hEW, if_pos rfl]
  dsimp only
  by_cases hc1 : imgW < a.x + a.width
  · rw [if_pos hc1]
    dsimp only
    by_cases hc2 : imgH < a.y + (imgW - a.x) / r
    · rw [if_pos hc2]
      have hlt : (imgH - a.y) * r < imgW - a.x := by
        rw [← lt_div_iff₀ hr]
        linarith
      have hwpos : 0 < (imgH - a.y) * r := mul_pos (by linarith) hr
      refine ⟨⟨⟨?_, ?_, ?_, ?_⟩, ?_, ?_⟩, ?_⟩ <;> dsimp only
      · exact hx
      · exact hy
      · linarith
      · linarith
      · linarith
      · linarith
    · rw [if_neg hc2]
      push_neg at hc2
      refine ⟨⟨⟨?_, ?_, ?_, ?_⟩, ?_, ?_⟩, ?_⟩ <;> dsimp only
      · exact hx
      · exact hy
      · linarith
      · linarith
      · linarith
      · exact div_pos (by linarith) hr
      · exact (div_mul_cancel₀ _ (ne_of_gt hr)).symm
  · rw [if_neg hc1]
    push_neg at hc1
    dsimp only
    by_cases hc2 : imgH < a.y + a.width / r
    · rw [if_pos hc2]
      have hlt : (imgH - a.y) * r < a.width := by
        rw [← lt_div_iff₀ hr]
        linarith
      have hwpos : 0 < (imgH - a.y) * r := mul_pos (by linarith) hr
      refine ⟨⟨⟨?_, ?_, ?_, ?_⟩, ?_, ?_⟩, ?_⟩ <;> dsimp only
      · exact hx
      · exact hy
      · linarith
      · linarith
      · linarith
      · linarith
    · rw [if_neg hc2]
      push_neg at hc2
      refine ⟨⟨⟨?_, ?_, ?_, ?_⟩, ?_, ?_⟩, ?_⟩ <;> dsimp only
      · exact hx
      · exact hy
      · linarith
      · linarith
      · exact hw
      · exact div_pos hw hr
      · exact (div_mul_cancel₀ _ (ne_of_gt hr)).symm

/-- One gesture with a fixed aspect ratio active preserves `aspectInv`. -/
theorem gestureStep_aspectInv (imgW imgH r : ℚ) (g : Gesture) (s : CropArea)
    (hr : 0 < r) (hs : aspectInv imgW imgH s) :
    aspectInv imgW imgH (gestureStep imgW imgH (some r) g s) := by
  cases g with
  | drag dx dy => exact dragMove_aspectInv imgW imgH s dx dy hs
  | resize hand dx dy =>
    obtain ⟨px, py, pw, _, pxW, pyH⟩ := resizeRaw_pre imgW imgH hand s dx dy hs
    exact (applyAspect_step imgW imgH r hand _ hr px py pw pxW pyH).1

/-- One gesture with no aspect constraint preserves the full invariant. -/
theorem gestureStep_cropInv (imgW imgH : ℚ) (g : Gesture) (s : CropArea)
    (hs : cropInv imgW imgH s) :
    cropInv imgW imgH (gestureStep imgW imgH none g s) := by
  cases g with
  | drag dx dy => exact dragMove_inv imgW imgH s dx dy hs
  | resize hand dx dy => exact resizeRaw_inv imgW imgH hand s dx dy hs

/-- A whole editing session: the gestures folded over the rectangle. -/
def gestureSeq (imgW imgH : ℚ) (aspect : Option ℚ) (gs : List Gesture)
    (s : CropArea) : CropArea :=
  gs.foldl (fun c g => gestureStep imgW imgH aspect g c) s

theorem gestureSeq_invariant (imgW imgH : ℚ) (aspect : Option ℚ)
    (P : CropArea → Prop)
    (hstep : ∀ g s, P s → P (gestureStep imgW imgH aspect g s)) :
    ∀ (gs : List Gesture) (s : CropArea), P s → P (gestureSeq imgW imgH aspect gs s) := by
  intro gs
  induction gs with
  | nil => intro s hs; exact hs
  | cons g gs ih =>
    intro s hs
    exact ih _ (hstep g s hs)

/-! ### Claim theorems for the crop geometry engine -/

/-- C2 counterexample: the invariant does not survive a resize with a fixed
aspect constraint active.  On a 1600×900 source with the 16:9 preset, the
rectangle (0,0,160,90) satisfies the invariant, yet one `se` resize by
(-110, 0) yields height 225/8 < 50. -/
theorem cropGesture_inv_counterexample :
    cropInv 1600 900 ⟨0, 0, 160, 90⟩ ∧
    (gestureStep 1600 900 (some (16/9)) (Gesture.resize Handle.se (-110) 0)
        ⟨0, 0, 160, 90⟩).height < 50 := by
  constructor
  · norm_num [cropInv, inBounds]
  · norm_num [gestureStep, resizeMove, resizeRaw, applyAspect, handleEW,
      max_def, min_def]

/-- C2 (amended).  For every sequence of drag and resize gesture events from
a rectangle satisfying the invariant, the crop Rectangle always satisfies
`0 ≤ x`, `0 ≤ y`, `x + width ≤ sourceWidth`, `y + height ≤ sourceHeight` —
including when a fixed AspectConstraint is active; the 50-unit minimum size
is additionally maintained after every gesture when no fixed aspect
constraint is active (with a fixed aspect active a resize can drive a
dimension below 50). -/
theorem cropGesture_bounds (imgW imgH : ℚ) (aspect : Option ℚ)
    (gs : List Gesture) (s : CropArea) (hs : cropInv imgW imgH s)
    (hr : ∀ r, aspect = some r → 0 < r) :
    inBounds imgW imgH (gestureSeq imgW imgH aspect gs s) ∧
    (aspect = none → cropInv imgW imgH (gestureSeq imgW imgH none gs s)) := by
  cases aspect with
  | none =>
    have h := gestureSeq_invariant imgW imgH none (cropInv imgW imgH)
      (fun g t ht => gestureStep_cropInv imgW imgH g t ht) gs s hs
    exact ⟨h.1, fun _ => h⟩
  | some r =>
    have hr0 : 0 < r := hr r rfl
    have hinit : aspectInv imgW imgH s := by
      obtain ⟨hb, hw, hh⟩ := hs
      exact ⟨hb, by linarith, by linarith⟩
    have h := gestureSeq_invariant imgW imgH (some r) (aspectInv imgW imgH)
      (fun g t ht => gestureStep_aspectInv imgW imgH r g t hr0 ht) gs s hinit
    exact ⟨h.1, fun hc => Option.noConfusion hc⟩

/-- Witness for the amended C2: a 16:9-constrained session on a 1600×900
source whose first resize drives the height below 50, followed by a drag
and another resize. -/
theorem cropGesture_bounds_witness :
    inBounds 1600 900
      (gestureSeq 1600 900 (some (16/9))
        [Gesture.resize Handle.se (-110) 0, Gesture.drag 2000 800,
          Gesture.resize Handle.se 100 100] ⟨0, 0, 160, 90⟩) ∧
    ((some (16/9) : Option ℚ) = none → cropInv 1600 900
      (gestureSeq 1600 900 none
        [Gesture.resize Handle.se (-110) 0, Gesture.drag 2000 800,
          Gesture.resize Handle.se 100 100] ⟨0, 0, 160, 90⟩)) :=
  cropGesture_bounds 1600 900 (some (16/9))
    [Gesture.resize Handle.se (-110) 0, Gesture.drag 2000 800,
      Gesture.resize Handle.se 100 100] ⟨0, 0, 160, 90⟩
    (by norm_num [cropInv, inBounds])
    (fun r h => by
      obtain rfl : (16/9 : ℚ) = r := Option.some.inj h
      norm_num)

/-- `|width/height - r| < 1e-6` for the crop rectangle. -/
def ratioOK (r : ℚ) (c : CropArea) : Prop :=
  |c.width / c.height - r| < 1 / 1000000

/-- C5.  With a fixed aspect constraint of ratio `r > 0` active, every
mutation of the rectangle leaves `|width/height - r| < 1e-6`: a resize via
any handle (including its bounds clamping) re-establishes the ratio exactly
from *every* state reachable by a gesture session — including the sub-50
rectangles such sessions reach — a drag preserves the ratio, and an
aspect-preset change establishes it. -/
theorem cropAspect_preserved (imgW imgH r dx dy : ℚ) (hand : Handle)
    (gs : List Gesture) (s0 t c : CropArea) (hr : 0 < r)
    (hs0 : cropInv imgW imgH s0) (hcw : 0 < c.width) (hch : 0 < c.height) :
    ratioOK r (resizeMove imgW imgH (some r) hand
      (gestureSeq imgW imgH (some r) gs s0) dx dy) ∧
    (ratioOK r t → ratioOK r (dragMove imgW imgH t dx dy)) ∧
    ratioOK r (presetChange imgW imgH r c) := by
  have key : ∀ d : CropArea, d.width = d.height * r → 0 < d.height → ratioOK r d := by
    intro d hwr hd
    unfold ratioOK
    rw [hwr, mul_comm, mul_div_assoc, div_self (ne_of_gt hd), mul_one]
    simp only [sub_self, abs_zero]
    norm_num
  refine ⟨?_, fun h => h, ?_⟩
  · have hinit : aspectInv imgW imgH s0 := by
      obtain ⟨hb, hw, hh⟩ := hs0
      exact ⟨hb, by linarith, by linarith⟩
    have hseq : aspectInv imgW imgH (gestureSeq imgW imgH (some r) gs s0) :=
      gestureSeq_invariant imgW imgH (some r) (aspectInv imgW imgH)
        (fun g u hu => gestureStep_aspectInv imgW imgH r g u hr hu) gs s0 hinit
    obtain ⟨px, py, pw, _, pxW, pyH⟩ :=
      resizeRaw_pre imgW imgH hand (gestureSeq imgW imgH (some r) gs s0) dx dy hseq
    obtain ⟨hinv, hwr⟩ := applyAspect_step imgW imgH r hand _ hr px py pw pxW pyH
    exact key _ hwr hinv.2.2
  · unfold presetChange
    by_cases hcond : r < c.width / c.height
    · simp only [gt_iff_lt, hcond, if_true]
      exact key _ rfl hch
    · simp only [gt_iff_lt, hcond, if_false]
      exact key _ (div_mul_cancel₀ _ (ne_of_gt hr)).symm (div_pos hcw hr)

/-- Witness for C5: 1600×900 source, ratio 16:9, a session whose first
resize leaves a sub-50 rectangle, then another `se` resize — plus the drag
and preset-change parts at the spec's example rectangle. -/
theorem cropAspect_preserved_witness :
    ratioOK (16/9) (resizeMove 1600 900 (some (16/9)) Handle.se
      (gestureSeq 1600 900 (some (16/9)) [Gesture.resize Handle.se (-110) 0]
        ⟨0, 0, 160, 90⟩) 500 10) ∧
    (ratioOK (16/9) (⟨100, 100, 800, 450⟩ : CropArea) →
      ratioOK (16/9) (dragMove 1600 900 ⟨100, 100, 800, 450⟩ 500 10)) ∧
    ratioOK (16/9) (presetChange 1600 900 (16/9) ⟨100, 100, 800, 450⟩) :=
  cropAspect_preserved 1600 900 (16/9) 500 10 Handle.se
    [Gesture.resize Handle.se (-110) 0] ⟨0, 0, 160, 90⟩
    ⟨100, 100, 800, 450⟩ ⟨100, 100, 800, 450⟩ (by norm_num)
    (by norm_num [cropInv, inBounds]) (by norm_num) (by norm_num)

/-! ## Fit compositor (`processImage`, processor.ts lines 148-215) -/

/-- JavaScript `Math.round` for the nonnegative values arising here:
round-half-up, `⌊q + 1/2⌋`. -/
def jsRound (q : ℚ) : ℤ := ⌊q + 1 / 2⌋

/-- The geometry computed by `processImage`. -/
structure FitResult where
  scale : ℚ
  scaledWidth : ℤ
  scaledHeight : ℤ
  offsetX : ℤ
  offsetY : ℤ
  deriving Repr, DecidableEq

/-- The scaling and centering math of `processImage`: uniform scale-to-fit,
rounded scaled dimensions, rounded centering offsets. -/
def processImage (originalWidth originalHeight canvasWidth canvasHeight : ℕ) :
    FitResult :=
  let scaleX : ℚ := canvasWidth / originalWidth
  let scaleY : ℚ := canvasHeight / originalHeight
  let scale : ℚ := min scaleX scaleY
  let scaledWidth : ℤ := jsRound (originalWidth * scale)
  let scaledHeight : ℤ := jsRound (originalHeight * scale)
  { scale := scale
    scaledWidth := scaledWidth
    scaledHeight := scaledHeight
    offsetX := jsRound ((canvasWidth - (scaledWidth : ℚ)) / 2)
    offsetY := jsRound ((canvasHeight - (scaledHeight : ℚ)) / 2) }

theorem jsRound_le (q : ℚ) (n : ℤ) (h : q ≤ n) : jsRound q ≤ n := by
  unfold jsRound
  have h2 : (⌊q + 1/2⌋ : ℤ) < n + 1 := by
    rw [Int.floor_lt]
    push_cast
    linarith
  omega

theorem jsRound_nonneg (q : ℚ) (h : 0 ≤ q) : 0 ≤ jsRound q := by
  unfold jsRound
  rw [Int.le_floor]
  push_cast
  linarith

/-- C3.  The fit compositor computes `scale = min(canvasW/w, canvasH/h)`,
rounds the scaled dimensions and the centering offsets, and on the spec's
example (4000×3000 source, 1080×1080 canvas) yields scale 0.27, scaled size
1080×810, offsets (0, 135). -/
theorem processImage_spec (originalWidth originalHeight canvasWidth canvasHeight : ℕ)
    (hw : 0 < originalWidth) (hh : 0 < originalHeight) :
    (processImage originalWidth originalHeight canvasWidth canvasHeight).scale =
      min ((canvasWidth : ℚ) / originalWidth) ((canvasHeight : ℚ) / originalHeight) ∧
    (processImage originalWidth originalHeight canvasWidth canvasHeight).scaledWidth =
      jsRound (originalWidth *
        (processImage originalWidth originalHeight canvasWidth canvasHeight).scale) ∧
    (processImage originalWidth originalHeight canvasWidth canvasHeight).scaledHeight =
      jsRound (originalHeight *
        (processImage originalWidth originalHeight canvasWidth canvasHeight).scale) ∧
    (processImage originalWidth originalHeight canvasWidth canvasHeight).offsetX =
      jsRound ((canvasWidth - ((processImage originalWidth originalHeight canvasWidth
        canvasHeight).scaledWidth : ℚ)) / 2) ∧
    (processImage originalWidth originalHeight canvasWidth canvasHeight).offsetY =
      jsRound ((canvasHeight - ((processImage originalWidth originalHeight canvasWidth
        canvasHeight).scaledHeight : ℚ)) / 2) ∧
    processImage 4000 3000 1080 1080 =
      { scale := 27/100, scaledWidth := 1080, scaledHeight := 810,
        offsetX := 0, offsetY := 135 } := by
  refine ⟨rfl, rfl, rfl, rfl, rfl, ?_⟩
  norm_num [processImage, jsRound, min_def, FitResult.mk.injEq]

/-- Witness for C3 at the spec's example dimensions. -/
theorem processImage_spec_witness :
    (processImage 4000 3000 1080 1080).scale =
      min ((1080 : ℚ) / 4000) ((1080 : ℚ) / 3000) ∧
    (processImage 4000 3000 1080 1080).scaledWidth =
      jsRound (4000 * (processImage 4000 3000 1080 1080).scale) ∧
    (processImage 4000 3000 1080 1080).scaledHeight =
      jsRound (3000 * (processImage 4000 3000 1080 1080).scale) ∧
    (processImage 4000 3000 1080 1080).offsetX =
      jsRound ((1080 - ((processImage 4000 3000 1080 1080).scaledWidth : ℚ)) / 2) ∧
    (processImage 4000 3000 1080 1080).offsetY =
      jsRound ((1080 - ((processImage 4000 3000 1080 1080).scaledHeight : ℚ)) / 2) ∧
    processImage 4000 3000 1080 1080 =
      { scale := 27/100, scaledWidth := 1080, scaledHeight := 810,
        offsetX := 0, offsetY := 135 } := by
  have h := processImage_spec 4000 3000 1080 1080 (by norm_num) (by norm_num)
  exact_mod_cast h

/-- C6.  Despite integer rounding, the scaled image fits the canvas: scaled
dimensions do not exceed the canvas, and offset + scaled dimension does not
overflow it. -/
theorem processImage_fits (originalWidth originalHeight canvasWidth canvasHeight : ℕ)
    (hw : 0 < originalWidth) (hh : 0 < originalHeight) :
    (processImage originalWidth originalHeight canvasWidth canvasHeight).scaledWidth ≤
      (canvasWidth : ℤ) ∧
    (processImage originalWidth originalHeight canvasWidth canvasHeight).scaledHeight ≤
      (canvasHeight : ℤ) ∧
    (processImage originalWidth originalHeight canvasWidth canvasHeight).offsetX +
      (processImage originalWidth originalHeight canvasWidth canvasHeight).scaledWidth ≤
      (canvasWidth : ℤ) ∧
    (processImage originalWidth originalHeight canvasWidth canvasHeight).offsetY +
      (processImage originalWidth originalHeight canvasWidth canvasHeight).scaledHeight ≤
      (canvasHeight : ℤ) := by
  have hoW : (0:ℚ) < originalWidth := by exact_mod_cast hw
  have hoH : (0:ℚ) < originalHeight := by exact_mod_cast hh
  have hs0 : 0 ≤ min ((canvasWidth : ℚ) / originalWidth) ((canvasHeight : ℚ) / originalHeight) :=
    le_min (div_nonneg (Nat.cast_nonneg _) hoW.le) (div_nonneg (Nat.cast_nonneg _) hoH.le)
  have hWle : (originalWidth : ℚ) *
      min ((canvasWidth : ℚ) / originalWidth) ((canvasHeight : ℚ) / originalHeight) ≤
      canvasWidth := by
    calc (originalWidth : ℚ) * min ((canvasWidth : ℚ) / originalWidth)
          ((canvasHeight : ℚ) / originalHeight) ≤
        originalWidth * ((canvasWidth : ℚ) / originalWidth) :=
          mul_le_mul_of_nonneg_left (min_le_left _ _) hoW.le
      _ = canvasWidth := by
          rw [mul_comm, div_mul_cancel₀ _ (ne_of_gt hoW)]
  have hHle : (originalHeight : ℚ) *
      min ((canvasWidth : ℚ) / originalWidth) ((canvasHeight : ℚ) / originalHeight) ≤
      canvasHeight := by
    calc (originalHeight : ℚ) * min ((canvasWidth : ℚ) / originalWidth)
          ((canvasHeight : ℚ) / originalHeight) ≤
        originalHeight * ((canvasHeight : ℚ) / originalHeight) :=
          mul_le_mul_of_nonneg_left (min_le_right _ _) hoH.le
      _ = canvasHeight := by
          rw [mul_comm, div_mul_cancel₀ _ (ne_of_gt hoH)]
  unfold processImage
  dsimp only
  have h1 : jsRound ((originalWidth : ℚ) *
      min ((canvasWidth : ℚ) / originalWidth) ((canvasHeight : ℚ) / originalHeight)) ≤
      (canvasWidth : ℤ) := jsRound_le _ _ (by push_cast; linarith)
  have h2 : jsRound ((originalHeight : ℚ) *
      min ((canvasWidth : ℚ) / originalWidth) ((canvasHeight : ℚ) / originalHeight)) ≤
      (canvasHeight : ℤ) := jsRound_le _ _ (by push_cast; linarith)
  have h1n : 0 ≤ jsRound ((originalWidth : ℚ) *
      min ((canvasWidth : ℚ) / originalWidth) ((canvasHeight : ℚ) / originalHeight)) :=
    jsRound_nonneg _ (mul_nonneg (Nat.cast_nonneg _) hs0)
  have h2n : 0 ≤ jsRound ((originalHeight : ℚ) *
      min ((canvasWidth : ℚ) / originalWidth) ((canvasHeight : ℚ) / originalHeight)) :=
    jsRound_nonneg _ (mul_nonneg (Nat.cast_nonneg _) hs0)
  refine ⟨h1, h2, ?_, ?_⟩
  · have h3 : jsRound (((canvasWidth : ℚ) - (jsRound ((originalWidth : ℚ) *
        min ((canvasWidth : ℚ) / originalWidth) ((canvasHeight : ℚ) / originalHeight)) : ℚ)) / 2) ≤
        (canvasWidth : ℤ) - jsRound ((originalWidth : ℚ) *
        min ((canvasWidth : ℚ) / originalWidth) ((canvasHeight : ℚ) / originalHeight)) := by
      apply jsRound_le
      push_cast
      have : ((jsRound ((originalWidth : ℚ) *
          min ((canvasWidth : ℚ) / originalWidth) ((canvasHeight : ℚ) / originalHeight)) : ℚ)) ≤
          (canvasWidth : ℚ) := by exact_mod_cast h1
      linarith
    omega
  · have h3 : jsRound (((canvasHeight : ℚ) - (jsRound ((originalHeight : ℚ) *
        min ((canvasWidth : ℚ) / originalWidth) ((canvasHeight : ℚ) / originalHeight)) : ℚ)) / 2) ≤
        (canvasHeight : ℤ) - jsRound ((originalHeight : ℚ) *
        min ((canvasWidth : ℚ) / originalWidth) ((canvasHeight : ℚ) / originalHeight)) := by
      apply jsRound_le
      push_cast
      have : ((jsRound ((originalHeight : ℚ) *
          min ((canvasWidth : ℚ) / originalWidth) ((canvasHeight : ℚ) / originalHeight)) : ℚ)) ≤
          (canvasHeight : ℚ) := by exact_mod_cast h2
      linarith
    omega

/-- Witness for C6 at the spec's example dimensions. -/
theorem processImage_fits_witness :
    (processImage 4000 3000 1080 1080).scaledWidth ≤ (1080 : ℤ) ∧
    (processImage 4000 3000 1080 1080).scaledHeight ≤ (1080 : ℤ) ∧
    (processImage 4000 3000 1080 1080).offsetX +
      (processImage 4000 3000 1080 1080).scaledWidth ≤ (1080 : ℤ) ∧
    (processImage 4000 3000 1080 1080).offsetY +
      (processImage 4000 3000 1080 1080).scaledHeight ≤ (1080 : ℤ) := by
  have h := processImage_fits 4000 3000 1080 1080 (by norm_num) (by norm_num)
  exact_mod_cast h

/-! ## Resampler step-down loop (`resizeImage`, ResizeImage.tsx lines 99-140) -/

/-- The loop guard: `currentCanvas.width > targetW * 2 || currentCanvas.height > targetH * 2`. -/
def needsStep (targetW targetH w h : ℕ) : Bool :=
  (targetW * 2 < w) || (targetH * 2 < h)

/-- One halving pass: `halfW = max(floor(w/2), targetW)`, `halfH = max(floor(h/2), targetH)`. -/
def stepDown (targetW targetH w h : ℕ) : ℕ × ℕ :=
  (max (w / 2) targetW, max (h / 2) targetH)

/-- The step-down while-loop, with explicit fuel; `none` means the fuel ran
out before the guard became false. -/
def stepDownLoop (targetW targetH : ℕ) : ℕ → ℕ × ℕ → Option (ℕ × ℕ)
  | 0, p => if needsStep targetW targetH p.1 p.2 then none else some p
  | fuel + 1, p =>
      if needsStep targetW targetH p.1 p.2 then
        stepDownLoop targetW targetH fuel (stepDown targetW targetH p.1 p.2)
      else some p

/-- The loop measure `max w targetW + max h targetH` strictly decreases at
every iteration whose guard holds. -/
theorem stepDown_measure (targetW targetH w h : ℕ)
    (hstep : needsStep targetW targetH w h = true) :
    max (stepDown targetW targetH w h).1 targetW +
      max (stepDown targetW targetH w h).2 targetH <
      max w targetW + max h targetH := by
  unfold needsStep at hstep
  rw [Bool.or_eq_true, decide_eq_true_eq, decide_eq_true_eq] at hstep
  unfold stepDown
  dsimp only
  have e1 : max (max (w / 2) targetW) targetW = max (w / 2) targetW := by
    rw [max_assoc, max_self]
  have e2 : max (max (h / 2) targetH) targetH = max (h / 2) targetH := by
    rw [max_assoc, max_self]
  rw [e1, e2]
  rcases hstep with hW | hH
  · have hT : targetW ≤ w / 2 := by omega
    have h1 : max (w / 2) targetW = w / 2 := max_eq_left hT
    have h2 : max w targetW = w := max_eq_left (by omega)
    have h3 : max (h / 2) targetH ≤ max h targetH :=
      max_le_max (Nat.div_le_self h 2) (le_refl targetH)
    omega
  · have hT : targetH ≤ h / 2 := by omega
    have h1 : max (h / 2) targetH = h / 2 := max_eq_left hT
    have h2 : max h targetH = h := max_eq_left (by omega)
    have h3 : max (w / 2) targetW ≤ max w targetW :=
      max_le_max (Nat.div_le_self w 2) (le_refl targetW)
    omega

/-- Fuel `max w targetW + max h targetH` always suffices. -/
theorem stepDownLoop_some (targetW targetH : ℕ) :
    ∀ fuel p, max p.1 targetW + max p.2 targetH ≤ fuel →
      (stepDownLoop targetW targetH fuel p).isSome = true := by
  intro fuel
  induction fuel with
  | zero =>
    intro p hp
    have hA := le_max_left p.1 targetW
    have hB := le_max_left p.2 targetH
    have hstep : needsStep targetW targetH p.1 p.2 = false := by
      unfold needsStep
      rw [Bool.or_eq_false_iff, decide_eq_false_iff_not, decide_eq_false_iff_not]
      omega
    simp [stepDownLoop, hstep]
  | succ fuel ih =>
    intro p hp
    by_cases hstep : needsStep targetW targetH p.1 p.2 = true
    · have hdec := stepDown_measure targetW targetH p.1 p.2 hstep
      simp only [stepDownLoop, hstep, if_true]
      exact ih _ (by omega)
    · simp [stepDownLoop, hstep]

/-- C4.  For positive targets, the step-down loop terminates — fuel
`max w targetW + max h targetH` suffices — and every intermediate buffer
produced by a halving pass keeps each dimension at or above the
corresponding target. -/
theorem resizeImage_stepDown_terminates (targetW targetH w h : ℕ)
    (htw : 0 < targetW) (hth : 0 < targetH) (hw : 0 < w) (hh : 0 < h) :
    (∃ r, stepDownLoop targetW targetH (max w targetW + max h targetH) (w, h) = some r) ∧
    (∀ w' h' : ℕ, targetW ≤ (stepDown targetW targetH w' h').1 ∧
      targetH ≤ (stepDown targetW targetH w' h').2) := by
  constructor
  · exact Option.isSome_iff_exists.mp
      (stepDownLoop_some targetW targetH (max w targetW + max h targetH) (w, h) (le_refl _))
  · intro w' h'
    exact ⟨le_max_right _ _, le_max_right _ _⟩

/-- Witness for C4 at the spec's example: 4096×4096 source resized toward
300×200. -/
theorem resizeImage_stepDown_terminates_witness :
    (∃ r, stepDownLoop 300 200 (max 4096 300 + max 4096 200) (4096, 4096) = some r) ∧
    (∀ w' h' : ℕ, 300 ≤ (stepDown 300 200 w' h').1 ∧ 200 ≤ (stepDown 300 200 w' h').2) :=
  resizeImage_stepDown_terminates 300 200 4096 4096
    (by norm_num) (by norm_num) (by norm_num) (by norm_num)

/-! ## Rotation (`handleRotate` and `handleCropAndDownload`, CropImage.tsx) -/

/-- `handleRotate` (lines 191-193): `setRotation((prev) => (prev + degrees) % 360)`.
The JavaScript `%` keeps the sign of the dividend, which is `Int.tmod`. -/
def handleRotate (rot degrees : ℤ) : ℤ := (rot + degrees).tmod 360

/-- A sequence of rotate commands folded through `handleRotate`, starting
from the initial rotation 0. -/
def rotateSeq (cmds : List ℤ) : ℤ := cmds.foldl handleRotate 0

/-- The rotated-canvas sizing of `handleCropAndDownload` (lines 312-322):
dimensions are swapped exactly when the accumulated rotation is ±90 or
±270 degrees. -/
def rotatedCanvasDims (rot : ℤ) (w h : ℕ) : ℕ × ℕ :=
  if rot = 90 ∨ rot = 270 ∨ rot = -90 ∨ rot = -270 then (h, w) else (w, h)

/-- Output dimensions of the crop extraction: the destination canvas is
`round(width) × round(height)` of the crop rectangle (lines 307-309). -/
def cropOutputDims (c : CropArea) : ℤ × ℤ := (jsRound c.width, jsRound c.height)

theorem tmod_360_lower (a : ℤ) : -360 < a.tmod 360 := by
  rcases a with m | m
  · have h := Int.tmod_nonneg 360 (show (0:ℤ) ≤ Int.ofNat m by
      rw [Int.ofNat_eq_natCast]; positivity)
    omega
  · show -360 < -(Int.ofNat ((m + 1) % 360))
    rw [Int.ofNat_eq_natCast]
    have : (m + 1) % 360 < 360 := Nat.mod_lt _ (by norm_num)
    omega

/-- C8 counterexample: at an accumulated rotation of 180°, the code keeps
the canvas at W×H (here 100×50); the claimed swap to H×W does not happen. -/
theorem rotatedCanvasDims_counterexample :
    rotatedCanvasDims 180 100 50 = (100, 50) ∧
    rotatedCanvasDims 180 100 50 ≠ (50, 100) := by
  constructor <;> decide

/-- C8 (amended).  The rotated destination canvas swaps width and height
exactly for accumulated rotations of ±90 and ±270 degrees; at 180 degrees
the dimensions are unchanged.  Extracting the full rotated frame after a
90° rotation of a W×H source therefore yields an H×W result. -/
theorem rotatedCanvasDims_swap (w h : ℕ) :
    rotatedCanvasDims 90 w h = (h, w) ∧
    rotatedCanvasDims 270 w h = (h, w) ∧
    rotatedCanvasDims (-90) w h = (h, w) ∧
    rotatedCanvasDims (-270) w h = (h, w) ∧
    rotatedCanvasDims 180 w h = (w, h) ∧
    cropOutputDims ⟨0, 0, (h : ℚ), (w : ℚ)⟩ = ((h : ℤ), (w : ℤ)) := by
  refine ⟨?_, ?_, ?_, ?_, ?_, ?_⟩
  · norm_num [rotatedCanvasDims]
  · norm_num [rotatedCanvasDims]
  · norm_num [rotatedCanvasDims]
  · norm_num [rotatedCanvasDims]
  · norm_num [rotatedCanvasDims]
  · unfold cropOutputDims jsRound
    dsimp only
    have hh : (⌊(h : ℚ) + 1 / 2⌋ : ℤ) = (h : ℤ) := by
      rw [Int.floor_eq_iff]
      refine ⟨?_, ?_⟩ <;> push_cast <;> linarith
    have hw : (⌊(w : ℚ) + 1 / 2⌋ : ℤ) = (w : ℤ) := by
      rw [Int.floor_eq_iff]
      refine ⟨?_, ?_⟩ <;> push_cast <;> linarith
    rw [hh, hw]

/-- C9 counterexample: a single −90° rotate command from the initial state
stores −90, which is outside `[0, 360)`. -/
theorem handleRotate_counterexample :
    handleRotate 0 (-90) = -90 ∧ ¬ (0 ≤ handleRotate 0 (-90)) := by
  constructor <;> decide

theorem foldl_handleRotate_bounds (cmds : List ℤ) (init : ℤ)
    (h : -360 < init ∧ init < 360) :
    -360 < cmds.foldl handleRotate init ∧ cmds.foldl handleRotate init < 360 := by
  induction cmds generalizing init with
  | nil => exact h
  | cons c cs ih =>
    exact ih (handleRotate init c)
      ⟨tmod_360_lower _, Int.tmod_lt_of_pos _ (by norm_num)⟩

/-- C9 (amended).  After every rotate command — and hence after each
command of any sequence started from 0 — the stored rotation lies in the
open interval (−360, 360); it only stays in `[0, 360)` when the
accumulator never goes negative (e.g. along +90°-only sequences). -/
theorem handleRotate_range (rot degrees : ℤ) (cmds : List ℤ) :
    (-360 < handleRotate rot degrees ∧ handleRotate rot degrees < 360) ∧
    (-360 < rotateSeq cmds ∧ rotateSeq cmds < 360) ∧
    (0 ≤ rot + degrees → 0 ≤ handleRotate rot degrees) := by
  refine ⟨⟨tmod_360_lower _, Int.tmod_lt_of_pos _ (by norm_num)⟩, ?_, ?_⟩
  · exact foldl_handleRotate_bounds cmds 0 (by norm_num)
  · intro hnn
    exact Int.tmod_nonneg 360 hnn

/-- Witness for the amended C9 at a +90° command from 0 and the sequence
of four +90° commands. -/
theorem handleRotate_range_witness :
    ((-360 < handleRotate 0 90 ∧ handleRotate 0 90 < 360) ∧
    (-360 < rotateSeq [90, 90, 90, 90] ∧ rotateSeq [90, 90, 90, 90] < 360) ∧
    (0 ≤ (0 : ℤ) + 90 → 0 ≤ handleRotate 0 90)) :=
  handleRotate_range 0 90 [90, 90, 90, 90]
